import Mathlib

/-!
Verification of the LatentWall job/stream orchestration layer.

Each definition below is a shallow embedding of a function or class of the
repository (paths given per definition).  Machine-level effects are made
explicit: polling loops take a fuel parameter and an explicit poll/time
oracle, exceptions become sum types, and the asyncio scheduler is modelled
as a small-step transition relation.
-/

namespace LatentWall

/-! ## Status dictionaries

Embedding of the dict built by SimulationManager.get_status
(src/src/simulation_manager.py, lines 219-227): job id, raw status string,
the projected stream-id list and the optional error message. -/

structure StatusDict where
  job_id : String
  status : String
  streams : List String
  error : Option String
  deriving DecidableEq, Repr

/-! ## wait_for_completion

Embedding of SimulationManager.wait_for_completion
(src/src/simulation_manager.py, lines 241-298).  The loop polls
get_status; `poll i` is the status dict returned by the i-th poll and
`time i` is the event-loop clock when the timeout check of iteration i
runs.  `fuel` bounds the number of loop iterations the model executes;
an exhausted fuel yields the `running` marker, meaning the Python loop
is still going. -/

inductive WaitOutcome where
  /-- the final status dict was returned to the caller -/
  | completed (st : StatusDict) : WaitOutcome
  /-- RuntimeError rose from the status being the failed string -/
  | errFailed (msg : String) : WaitOutcome
  /-- RuntimeError rose from the status being the cancelled string -/
  | errCancelled : WaitOutcome
  /-- TimeoutError rose from the elapsed-time check -/
  | errTimeout : WaitOutcome
  /-- the loop has not finished within the given fuel -/
  | running : WaitOutcome
  deriving DecidableEq, Repr

/-- Statuses the loop keeps polling on: the Python membership test
`status in (pending, running)` at line 274. -/
def isActive (s : String) : Bool :=
  s == "pending" || s == "running"

/-- The failed/cancelled/return checks after the loop breaks
(lines 287-298). -/
def terminalOutcome (st : StatusDict) : WaitOutcome :=
  if st.status = "failed" then
    WaitOutcome.errFailed (st.error.getD "Unknown error")
  else if st.status = "cancelled" then
    WaitOutcome.errCancelled
  else
    WaitOutcome.completed st

/-- The polling loop of wait_for_completion.  Note the Python guard at
line 278 is the truthiness test `if timeout:`, so a timeout of 0 behaves
exactly like None (the elapsed check is skipped). -/
def waitForCompletion (poll : Nat → StatusDict) (time : Nat → Int)
    (startTime : Int) (timeout : Option Int) : Nat → Nat → WaitOutcome
  | 0, _ => WaitOutcome.running
  | fuel + 1, i =>
    let st := poll i
    if isActive st.status then
      match timeout with
      | none => waitForCompletion poll time startTime timeout fuel (i + 1)
      | some t =>
        if t = 0 then
          waitForCompletion poll time startTime timeout fuel (i + 1)
        else if time i - startTime > t then
          WaitOutcome.errTimeout
        else
          waitForCompletion poll time startTime timeout fuel (i + 1)
    else
      terminalOutcome st

/-! ## download_result

Embedding of SimulationManager.download_result
(src/src/simulation_manager.py, lines 316-370): with an empty stream list
it logs a warning and returns the empty list; otherwise it returns, per
stream index, the video path and the thumbnail path. -/

def download_result (st : StatusDict) : List String :=
  if st.streams.isEmpty then
    []
  else
    st.streams.enum.flatMap fun p =>
      [st.job_id ++ "_stream_" ++ toString p.fst ++ ".mp4",
       st.job_id ++ "_stream_" ++ toString p.fst ++ "_thumb.jpg"]

/-! ## Concrete poll oracles used in evaluations -/

/-- An oracle whose every poll reports completion with zero streams. -/
def pollCompletedEmpty : Nat → StatusDict := fun _ =>
  ⟨"job1", "completed", [], none⟩

/-- An oracle whose every poll reports the pending status. -/
def pollPendingForever : Nat → StatusDict := fun _ =>
  ⟨"job2", "pending", [], none⟩

/-- An oracle reporting a status string outside the JobStatus vocabulary. -/
def pollWeirdStatus : Nat → StatusDict := fun _ =>
  ⟨"job3", "banana", ["s1"], none⟩

/-- C10: wait_for_completion treats any status outside pending/running as
terminal: the outcome depends only on the first such poll (not on fuel,
clock, timeout or later polls), an error rises exactly for the failed and
cancelled strings, and every other status string — including ones outside
the JobStatus vocabulary — is returned to the caller as a success. -/
theorem wait_terminal_classification
    (poll poll₂ : Nat → StatusDict) (time time₂ : Nat → Int)
    (startTime startTime₂ : Int) (timeout timeout₂ : Option Int)
    (fuel fuel₂ i : Nat)
    (h : isActive (poll i).status = false) (heq : poll₂ i = poll i) :
    waitForCompletion poll₂ time₂ startTime₂ timeout₂ (fuel₂ + 1) i =
      waitForCompletion poll time startTime timeout (fuel + 1) i
    ∧ ((poll i).status = "failed" →
        waitForCompletion poll time startTime timeout (fuel + 1) i =
          WaitOutcome.errFailed ((poll i).error.getD "Unknown error"))
    ∧ ((poll i).status = "cancelled" →
        waitForCompletion poll time startTime timeout (fuel + 1) i =
          WaitOutcome.errCancelled)
    ∧ ((poll i).status ≠ "failed" → (poll i).status ≠ "cancelled" →
        waitForCompletion poll time startTime timeout (fuel + 1) i =
          WaitOutcome.completed (poll i)) := by
  have hrun : waitForCompletion poll time startTime timeout (fuel + 1) i =
      terminalOutcome (poll i) := by
    simp only [waitForCompletion, h, Bool.false_eq_true, if_false]
  have hrun₂ : waitForCompletion poll₂ time₂ startTime₂ timeout₂ (fuel₂ + 1) i =
      terminalOutcome (poll i) := by
    simp only [waitForCompletion, heq, h, Bool.false_eq_true, if_false]
  refine ⟨hrun₂.trans hrun.symm, ?_, ?_, ?_⟩
  · intro hf
    rw [hrun, terminalOutcome, if_pos hf]
  · intro hc
    have hf : (poll i).status ≠ "failed" := by
      rw [hc]; decide
    rw [hrun, terminalOutcome, if_neg hf, if_pos hc]
  · intro hf hc
    rw [hrun, terminalOutcome, if_neg hf, if_neg hc]

/-- C10 witness: a first poll with the unrecognized status banana is
returned to the caller as a successful final outcome. -/
theorem wait_terminal_classification_witness :
    waitForCompletion pollWeirdStatus (fun _ => 0) 0 none 5 0 =
      WaitOutcome.completed ⟨"job3", "banana", ["s1"], none⟩ := by
  have h := wait_terminal_classification pollWeirdStatus pollWeirdStatus
    (fun _ => 0) (fun _ => 0) 0 0 none none 4 4 0 (by decide) rfl
  exact h.2.2.2 (by decide) (by decide)

/-- C1 counterexample: with every poll reporting completion with zero
streams, wait_for_completion returns that status as a successful
terminal outcome (the completed constructor, not an error), and
download_result yields the empty list without raising — the code never
synthesizes an empty-result failure. -/
theorem wait_empty_completion_counterexample :
    waitForCompletion pollCompletedEmpty (fun i => 5 * (i : Int)) 0 none 3 0 =
      WaitOutcome.completed ⟨"job1", "completed", [], none⟩
    ∧ download_result ⟨"job1", "completed", [], none⟩ = [] := by
  constructor <;> rfl

/-- C1 (amended): when a poll reports the completed status with zero
streams, wait_for_completion returns that status dict to the caller as a
valid terminal success, and download_result on it returns the empty
path list (a logged warning, not an error). -/
theorem wait_empty_completion_amended
    (poll : Nat → StatusDict) (time : Nat → Int) (startTime : Int)
    (timeout : Option Int) (fuel i : Nat)
    (hst : (poll i).status = "completed") (hstr : (poll i).streams = []) :
    waitForCompletion poll time startTime timeout (fuel + 1) i =
      WaitOutcome.completed (poll i)
    ∧ download_result (poll i) = [] := by
  have ha : isActive (poll i).status = false := by
    rw [hst]; decide
  have hf : (poll i).status ≠ "failed" := by
    rw [hst]; decide
  have hc : (poll i).status ≠ "cancelled" := by
    rw [hst]; decide
  constructor
  · simp only [waitForCompletion, ha, Bool.false_eq_true, if_false,
      terminalOutcome, if_neg hf, if_neg hc]
  · rw [download_result, if_pos (by simp [hstr])]

/-- C1 amended witness: evaluation at the concrete empty-completion
oracle. -/
theorem wait_empty_completion_amended_witness :
    waitForCompletion pollCompletedEmpty (fun _ => 0) 0 (some 60) 8 2 =
      WaitOutcome.completed ⟨"job1", "completed", [], none⟩
    ∧ download_result ⟨"job1", "completed", [], none⟩ = [] :=
  wait_empty_completion_amended pollCompletedEmpty (fun _ => 0) 0
    (some 60) 7 2 rfl rfl

/-- Helper: while every poll stays active, a nonzero timeout whose bound
the clock has passed by poll `i + d` makes the loop raise TimeoutError
within some fuel. -/
lemma wait_timeout_reaches (poll : Nat → StatusDict) (time : Nat → Int)
    (startTime : Int) (hp : ∀ j, isActive (poll j).status = true)
    (t : Int) (ht : t ≠ 0) :
    ∀ d i, time (i + d) - startTime > t →
      ∃ fuel, waitForCompletion poll time startTime (some t) fuel i =
        WaitOutcome.errTimeout := by
  intro d
  induction d with
  | zero =>
    intro i hover
    refine ⟨1, ?_⟩
    simp only [waitForCompletion, hp i, if_true, if_neg ht]
    rw [if_pos (by simpa using hover)]
  | succ d ih =>
    intro i hover
    by_cases hnow : time i - startTime > t
    · refine ⟨1, ?_⟩
      simp only [waitForCompletion, hp i, if_true, if_neg ht]
      rw [if_pos hnow]
    · obtain ⟨fuel, hfuel⟩ := ih (i + 1) (by
        have : i + 1 + d = i + (d + 1) := by omega
        rwa [this])
      refine ⟨fuel + 1, ?_⟩
      simp only [waitForCompletion, hp i, if_true, if_neg ht, if_neg hnow]
      exact hfuel

/-- C7 counterexample: the explicitly supplied timeout value 0 does not
bound the wait.  With every poll pending and the event-loop clock far past
the zero-second budget (elapsed 100 at the last executed check), the loop
is still polling after 20 iterations and has raised no TimeoutError,
because the Python guard is the truthiness test `if timeout:`. -/
theorem wait_timeout_zero_counterexample :
    waitForCompletion pollPendingForever (fun i => 5 * ((i : Int) + 1)) 0
      (some 0) 20 0 = WaitOutcome.running
    ∧ 5 * ((19 : Int) + 1) - 0 > 0 := by
  constructor
  · rfl
  · decide

/-- C7 (amended): with no explicit timeout the wait never times out (it
keeps polling while the job stays pending/running); a supplied timeout
never lets a pending/running status escape to the caller; and every
NONZERO supplied timeout bounds the wait: once the clock passes the
budget, the loop raises the distinct TimeoutError outcome. -/
theorem wait_timeout_amended (poll : Nat → StatusDict) (time : Nat → Int)
    (startTime : Int) (hp : ∀ j, isActive (poll j).status = true) :
    (∀ fuel i, waitForCompletion poll time startTime none fuel i =
       WaitOutcome.running)
    ∧ (∀ t : Int, ∀ fuel i,
        waitForCompletion poll time startTime (some t) fuel i =
          WaitOutcome.running
        ∨ waitForCompletion poll time startTime (some t) fuel i =
          WaitOutcome.errTimeout)
    ∧ (∀ t : Int, t ≠ 0 → ∀ i j, i ≤ j → time j - startTime > t →
        ∃ fuel, waitForCompletion poll time startTime (some t) fuel i =
          WaitOutcome.errTimeout) := by
  refine ⟨?_, ?_, ?_⟩
  · intro fuel
    induction fuel with
    | zero => intro i; rfl
    | succ fuel ih =>
      intro i
      simp only [waitForCompletion, hp i, if_true]
      exact ih (i + 1)
  · intro t fuel
    induction fuel with
    | zero => intro i; exact Or.inl rfl
    | succ fuel ih =>
      intro i
      simp only [waitForCompletion, hp i, if_true]
      by_cases ht : t = 0
      · rw [if_pos ht]
        exact ih (i + 1)
      · rw [if_neg ht]
        by_cases hover : time i - startTime > t
        · rw [if_pos hover]
          exact Or.inr rfl
        · rw [if_neg hover]
          exact ih (i + 1)
  · intro t ht i j hij hover
    have : time (i + (j - i)) - startTime > t := by
      have : i + (j - i) = j := by omega
      rwa [this]
    exact wait_timeout_reaches poll time startTime hp t ht (j - i) i this

/-- C7 amended witness: at the always-pending oracle with clock 5(i+1),
the unbounded wait is still polling after 4 iterations. -/
theorem wait_timeout_amended_witness :
    waitForCompletion pollPendingForever (fun i => 5 * ((i : Int) + 1)) 0
      none 4 2 = WaitOutcome.running :=
  (wait_timeout_amended pollPendingForever (fun i => 5 * ((i : Int) + 1)) 0
    (fun _ => rfl)).1 4 2

/-! ## StreamManager

Embedding of the StreamManager class (src/backend/main.py, lines 70-103).
Consumers (WebSocket connections) are identified by Nat handles; the send
behaviour of each consumer is an oracle `send : Nat → SendResult`
(`delivered` for a successful send_text, `exn` for a raised exception).
broadcast_frame gathers one send per connection with exceptions returned
rather than raised (asyncio.gather with return_exceptions=True), so it
is a total function: it returns the resulting manager state together
with the list of per-consumer send results. -/

inductive SendResult where
  | delivered : SendResult
  | exn (msg : String) : SendResult
  deriving DecidableEq, Repr

structure StreamManager where
  active_connections : List Nat
  deriving DecidableEq, Repr

/-- StreamManager.disconnect (lines 82-85): remove the websocket when
present, otherwise leave the list unchanged. -/
def disconnect (sm : StreamManager) (ws : Nat) : StreamManager :=
  if ws ∈ sm.active_connections then
    ⟨sm.active_connections.erase ws⟩
  else
    sm

/-- StreamManager.broadcast_frame (lines 87-103): with no connections
return immediately; otherwise send the frame to every connection,
collecting exceptions instead of raising them.  The connection list is
not modified on any path. -/
def broadcast_frame (sm : StreamManager) (send : Nat → SendResult) :
    StreamManager × List (Nat × SendResult) :=
  if sm.active_connections.isEmpty then
    (sm, [])
  else
    (sm, sm.active_connections.map fun c => (c, send c))

/-- C2 counterexample: with subscribed consumers 1, 2, 3 and consumer 2
failing its send, broadcast_frame still delivers to consumers 1 and 3 and
raises nothing, but the failing consumer 2 is NOT removed: the subscriber
list is unchanged and still contains 2. -/
theorem broadcast_failed_consumer_counterexample :
    (broadcast_frame ⟨[1, 2, 3]⟩
        (fun c => if c = 2 then SendResult.exn "boom" else SendResult.delivered)).1 =
      (⟨[1, 2, 3]⟩ : StreamManager)
    ∧ 2 ∈ (broadcast_frame ⟨[1, 2, 3]⟩
        (fun c => if c = 2 then SendResult.exn "boom" else SendResult.delivered)).1.active_connections
    ∧ (broadcast_frame ⟨[1, 2, 3]⟩
        (fun c => if c = 2 then SendResult.exn "boom" else SendResult.delivered)).2 =
      [(1, SendResult.delivered), (2, SendResult.exn "boom"),
       (3, SendResult.delivered)] := by
  refine ⟨rfl, ?_, rfl⟩
  decide

/-- C2 (amended): a send failure during broadcast_frame never prevents
delivery to any other subscribed consumer and never propagates as an
exception (every consumer, failing or not, gets exactly its own send
outcome collected), but the failing consumer is NOT removed from the
subscriber set: the connection list is returned unchanged, and removal
happens only later via disconnect in the websocket endpoint handler. -/
theorem broadcast_isolation_amended (sm : StreamManager)
    (send : Nat → SendResult) (c : Nat)
    (hc : c ∈ sm.active_connections) :
    (broadcast_frame sm send).1 = sm
    ∧ (c, send c) ∈ (broadcast_frame sm send).2 := by
  have hne : sm.active_connections.isEmpty = false := by
    cases h : sm.active_connections with
    | nil => rw [h] at hc; exact absurd hc (List.not_mem_nil c)
    | cons a l => rfl
  constructor
  · rw [broadcast_frame]
    split <;> rfl
  · rw [broadcast_frame, if_neg (by simp [hne])]
    exact List.mem_map_of_mem (fun x => (x, send x)) hc

/-- C2 amended witness: evaluation at the three-consumer manager with
consumer 2 failing. -/
theorem broadcast_isolation_amended_witness :
    (broadcast_frame ⟨[1, 2, 3]⟩
        (fun c => if c = 2 then SendResult.exn "pipe" else SendResult.delivered)).1 =
      (⟨[1, 2, 3]⟩ : StreamManager)
    ∧ (3, SendResult.delivered) ∈ (broadcast_frame ⟨[1, 2, 3]⟩
        (fun c => if c = 2 then SendResult.exn "pipe" else SendResult.delivered)).2 :=
  broadcast_isolation_amended ⟨[1, 2, 3]⟩
    (fun c => if c = 2 then SendResult.exn "pipe" else SendResult.delivered) 3
    (by decide)

/-! ## OdysseyClientManager.end_stream

Embedding of OdysseyClientManager.end_stream
(src/src/odyssey_client.py, lines 216-240).  The manager state carries
the connected flag and the optional current stream id; the behaviour of
the underlying client.end_stream call is an oracle (it either returns or
raises).  The Python method raises OdysseyStreamError when not
connected; with no active stream it logs a warning and returns (no-op
success); otherwise it forwards to the client, clears the stream id, and
re-raises client errors after clearing the id. -/

inductive EndStreamResult where
  | ok : EndStreamResult
  | errNotConnected : EndStreamResult
  | errClient (msg : String) : EndStreamResult
  deriving DecidableEq, Repr

structure ClientState where
  connected : Bool
  current_stream_id : Option String
  deriving DecidableEq, Repr

def end_stream (st : ClientState) (clientEnd : Except String Unit) :
    EndStreamResult × ClientState :=
  if st.connected = false then
    (EndStreamResult.errNotConnected, st)
  else
    match st.current_stream_id with
    | none => (EndStreamResult.ok, st)
    | some _ =>
      match clientEnd with
      | Except.ok _ => (EndStreamResult.ok, ⟨st.connected, none⟩)
      | Except.error e => (EndStreamResult.errClient e, ⟨st.connected, none⟩)

/-- C8: on a connected session with an active stream whose underlying
end call succeeds, calling end_stream twice in a row succeeds both
times: the first call ends the stream and clears the active stream id,
and the second call — finding no active stream — is an idempotent no-op
success that changes nothing and raises no error, whatever the client
oracle would do. -/
theorem end_stream_idempotent (sid : String)
    (clientEnd₂ : Except String Unit)
    (st : ClientState) (hconn : st.connected = true)
    (hsid : st.current_stream_id = some sid) :
    (end_stream st (Except.ok ())).1 = EndStreamResult.ok
    ∧ (end_stream st (Except.ok ())).2 = ⟨true, none⟩
    ∧ (end_stream (end_stream st (Except.ok ())).2 clientEnd₂).1 =
        EndStreamResult.ok
    ∧ (end_stream (end_stream st (Except.ok ())).2 clientEnd₂).2 =
        ⟨true, none⟩ := by
  have h1 : end_stream st (Except.ok ()) =
      (EndStreamResult.ok, ⟨true, none⟩) := by
    rw [end_stream, if_neg (by rw [hconn]; decide), hsid]
    simp [hconn]
  refine ⟨by rw [h1], by rw [h1], ?_, ?_⟩ <;> rw [h1] <;> rfl

/-- C8 witness: the double call evaluated on a concrete connected state
with stream id s42, the second call under a client oracle that would
fail if it were consulted. -/
theorem end_stream_idempotent_witness :
    (end_stream (⟨true, some "s42"⟩ : ClientState) (Except.ok ())).1 =
      EndStreamResult.ok
    ∧ (end_stream (⟨true, some "s42"⟩ : ClientState) (Except.ok ())).2 =
      (⟨true, none⟩ : ClientState)
    ∧ (end_stream (end_stream (⟨true, some "s42"⟩ : ClientState)
        (Except.ok ())).2 (Except.error "down")).1 = EndStreamResult.ok
    ∧ (end_stream (end_stream (⟨true, some "s42"⟩ : ClientState)
        (Except.ok ())).2 (Except.error "down")).2 =
      (⟨true, none⟩ : ClientState) :=
  end_stream_idempotent "s42" (Except.error "down")
    ⟨true, some "s42"⟩ rfl rfl

/-! ## BatchProcessor data path

Embedding of BatchProcessor.process_batch and _process_single
(src/src/simulation_manager.py, lines 419-500).  The external service is
an oracle per item: `submit` returns a job id or raises, `wait` is the
outcome of wait_for_completion, `download` the outcome of
download_result (each modelled as Except, for the exceptions the Python
code can see).  _process_single wraps the submit→wait→download pipeline
in try/except Exception and returns a success dict {index, job_id,
status, files} or a failure dict {index, status, error}; since it never
raises, gather with return_exceptions=True returns exactly these dicts
in task-creation order, i.e. input order. -/

structure BatchResult where
  index : Nat
  job_id : Option String
  status : String
  files : List String
  error : Option String
  deriving DecidableEq, Repr

structure ServiceBehavior (α : Type) where
  submit : α → Except String String
  wait : String → Except String StatusDict
  download : StatusDict → Except String (List String)

/-- The body of the try block of _process_single (lines 469-488): submit,
wait, download, propagating the first exception. -/
def pipelineRun {α : Type} (b : ServiceBehavior α) (script : α) :
    Except String (String × List String) :=
  match b.submit script with
  | Except.error e => Except.error e
  | Except.ok jid =>
    match b.wait jid with
    | Except.error e => Except.error e
    | Except.ok st =>
      match b.download st with
      | Except.error e => Except.error e
      | Except.ok files => Except.ok (jid, files)

/-- _process_single (lines 460-500): the try/except around the pipeline,
returning the success dict or the failure dict. -/
def processSingle {α : Type} (b : ServiceBehavior α) (script : α)
    (index : Nat) : BatchResult :=
  match pipelineRun b script with
  | Except.ok (jid, files) => ⟨index, some jid, "success", files, none⟩
  | Except.error e => ⟨index, none, "failed", [], some e⟩

/-- The task list built by enumerate(scripts) in process_batch
(lines 438-441), starting at index k. -/
def processFrom {α : Type} (behaviors : Nat → ServiceBehavior α) :
    Nat → List α → List BatchResult
  | _, [] => []
  | k, sc :: rest =>
    processSingle (behaviors k) sc k :: processFrom behaviors (k + 1) rest

/-- BatchProcessor.process_batch (lines 419-458): one _process_single
task per script, gathered in task order. -/
def process_batch {α : Type} (behaviors : Nat → ServiceBehavior α)
    (scripts : List α) : List BatchResult :=
  processFrom behaviors 0 scripts

/-- Completion-order model of asyncio.gather: tasks complete in the
sequence `order`; each completing task j stores its result in slot j;
gather returns the slots in task order.  Used to state that the result
sequence does not depend on completion order. -/
def runInOrder (results : List BatchResult) (order : List Nat) :
    List (Option BatchResult) :=
  order.foldl
    (fun slots j =>
      match results.get? j with
      | some r => slots.set j (some r)
      | none => slots)
    (List.replicate results.length none)

lemma processFrom_length {α : Type} (behaviors : Nat → ServiceBehavior α) :
    ∀ (l : List α) (k : Nat), (processFrom behaviors k l).length = l.length := by
  intro l
  induction l with
  | nil => intro k; rfl
  | cons sc rest ih =>
    intro k
    simp only [processFrom, List.length_cons, ih]

lemma processFrom_get? {α : Type} (behaviors : Nat → ServiceBehavior α) :
    ∀ (l : List α) (k j : Nat),
      (processFrom behaviors k l).get? j =
        (l.get? j).map fun sc => processSingle (behaviors (k + j)) sc (k + j) := by
  intro l
  induction l with
  | nil => intro k j; cases j <;> rfl
  | cons sc rest ih =>
    intro k j
    cases j with
    | zero => rfl
    | succ j =>
      have h := ih (k + 1) j
      simp only [processFrom, List.get?_cons_succ, h]
      have harith : k + 1 + j = k + (j + 1) := by omega
      rw [harith]

lemma processSingle_index {α : Type} (b : ServiceBehavior α) (sc : α)
    (i : Nat) : (processSingle b sc i).index = i := by
  rw [processSingle]
  rcases pipelineRun b sc with e | v
  · rfl
  · rcases v with ⟨jid, files⟩
    rfl

lemma foldl_store_get? (results : List BatchResult) :
    ∀ (order : List Nat) (slots : List (Option BatchResult))
      (hlen : slots.length = results.length) (j : Nat),
      (order.foldl
        (fun slots j =>
          match results.get? j with
          | some r => slots.set j (some r)
          | none => slots) slots).get? j =
        if j ∈ order ∧ j < results.length then (results.get? j).map some
        else slots.get? j := by
  intro order
  induction order with
  | nil =>
    intro slots hlen j
    simp
  | cons o os ih =>
    intro slots hlen j
    rw [List.foldl_cons]
    rcases hro : results.get? o with _ | r
    · have hoN : ¬ o < results.length := by
        intro hlt
        rw [List.get?_eq_get hlt] at hro
        exact Option.noConfusion hro
      rw [ih slots hlen j]
      by_cases hj : j ∈ os ∧ j < results.length
      · rw [if_pos hj, if_pos ⟨List.mem_cons_of_mem o hj.1, hj.2⟩]
      · rw [if_neg hj]
        have : ¬ (j ∈ o :: os ∧ j < results.length) := by
          intro hcon
          rcases List.mem_cons.mp hcon.1 with hjo | hjos
          · exact hoN (hjo ▸ hcon.2)
          · exact hj ⟨hjos, hcon.2⟩
        rw [if_neg this]
    · have hoN : o < results.length := by
        by_contra hge
        rw [List.get?_eq_none.mpr (by omega)] at hro
        exact Option.noConfusion hro
      rw [ih (slots.set o (some r)) (by simpa using hlen) j]
      by_cases hj : j ∈ os ∧ j < results.length
      · rw [if_pos hj, if_pos ⟨List.mem_cons_of_mem o hj.1, hj.2⟩]
      · rw [if_neg hj]
        by_cases hjo : j = o
        · subst hjo
          have hcond : j ∈ j :: os ∧ j < results.length :=
            ⟨List.mem_cons_self j os, hoN⟩
          rw [if_pos hcond, List.get?_set_eq, hro]
          simp [hlen, hoN]
        · have : ¬ (j ∈ o :: os ∧ j < results.length) := by
            intro hcon
            rcases List.mem_cons.mp hcon.1 with hjo2 | hjos
            · exact hjo hjo2
            · exact hj ⟨hjos, hcon.2⟩
          rw [if_neg this, List.get?_set_ne _ _ (fun he => hjo he.symm)]

/-- Helper: for any completion order that is a permutation of the task
indices, the slot table read out in task order is exactly the result
list. -/
lemma runInOrder_perm (results : List BatchResult) (order : List Nat)
    (hperm : order.Perm (List.range results.length)) :
    runInOrder results order = results.map some := by
  apply List.ext
  intro j
  rw [runInOrder, foldl_store_get? results order _ (by simp) j]
  by_cases hj : j < results.length
  · have hmem : j ∈ order := hperm.mem_iff.mpr (List.mem_range.mpr hj)
    rw [if_pos ⟨hmem, hj⟩, List.get?_map]
  · have hno : ¬ (j ∈ order ∧ j < results.length) := fun hcon => hj hcon.2
    have h1 : (List.replicate results.length (none : Option BatchResult)).get? j =
        none := List.get?_eq_none.mpr (by rw [List.length_replicate]; omega)
    have h2 : (results.map some).get? j = none :=
      List.get?_eq_none.mpr (by rw [List.length_map]; omega)
    rw [if_neg hno, h1, h2]

/-- C4: process_batch returns exactly one result per input script
(including the empty batch), the entry at position i is the result of
scripts[i] with its index field equal to i, and the returned sequence is
the same for every completion order of the gathered tasks. -/
theorem process_batch_result_order {α : Type}
    (behaviors : Nat → ServiceBehavior α) (scripts : List α)
    (order : List Nat)
    (hperm : order.Perm (List.range scripts.length)) :
    (process_batch behaviors scripts).length = scripts.length
    ∧ (∀ i, i < scripts.length →
        (process_batch behaviors scripts).get? i =
          (scripts.get? i).map fun sc => processSingle (behaviors i) sc i)
    ∧ (∀ i r, (process_batch behaviors scripts).get? i = some r →
        r.index = i)
    ∧ runInOrder (process_batch behaviors scripts) order =
        (process_batch behaviors scripts).map some := by
  have hlen : (process_batch behaviors scripts).length = scripts.length :=
    processFrom_length behaviors scripts 0
  have hget : ∀ i, (process_batch behaviors scripts).get? i =
      (scripts.get? i).map fun sc => processSingle (behaviors i) sc i := by
    intro i
    have h := processFrom_get? behaviors scripts 0 i
    simpa using h
  refine ⟨hlen, fun i _ => hget i, ?_, ?_⟩
  · intro i r hr
    rw [hget i] at hr
    rcases hsc : scripts.get? i with _ | sc
    · rw [hsc] at hr
      exact Option.noConfusion hr
    · rw [hsc] at hr
      have : processSingle (behaviors i) sc i = r := Option.some.inj hr
      rw [← this]
      exact processSingle_index (behaviors i) sc i
  · exact runInOrder_perm (process_batch behaviors scripts) order
      (by rwa [hlen])

/-- Success-path service oracle used to evaluate the batch model. -/
def behaviorsOk : Nat → ServiceBehavior String := fun _ =>
  ⟨fun sc => Except.ok (sc ++ "-id"),
   fun jid => Except.ok ⟨jid, "completed", ["s0"], none⟩,
   fun st => Except.ok (download_result st)⟩

/-- C4 witness: with inputs A, B, C and completion order C, A, B the
gathered sequence equals the task-order result sequence. -/
theorem process_batch_result_order_witness :
    runInOrder (process_batch behaviorsOk ["A", "B", "C"]) [2, 0, 1] =
      (process_batch behaviorsOk ["A", "B", "C"]).map some :=
  (process_batch_result_order behaviorsOk ["A", "B", "C"] [2, 0, 1]
    (by decide)).2.2.2

/-- C5: a batch item failing at any stage yields the failure record
{index, status failed, error} for exactly that item; each position of the
batch output depends only on that item's own service behaviour, so one
item's failure cannot alter any other item's outcome; and the batch
always completes with one result per input — when every item fails, every
position still holds a failed record carrying its own index. -/
theorem process_batch_isolation {α : Type}
    (behaviors behaviors₂ : Nat → ServiceBehavior α) (scripts : List α) :
    (process_batch behaviors scripts).length = scripts.length
    ∧ (∀ (b : ServiceBehavior α) (sc : α) (i : Nat) (e : String),
        pipelineRun b sc = Except.error e →
        processSingle b sc i = ⟨i, none, "failed", [], some e⟩)
    ∧ (∀ j, behaviors j = behaviors₂ j →
        (process_batch behaviors scripts).get? j =
          (process_batch behaviors₂ scripts).get? j)
    ∧ ((∀ i sc, ∃ e, pipelineRun (behaviors i) sc = Except.error e) →
        ∀ j, j < scripts.length →
          ∃ r, (process_batch behaviors scripts).get? j = some r
            ∧ r.index = j ∧ r.status = "failed") := by
  have hget : ∀ (bs : Nat → ServiceBehavior α) (i : Nat),
      (process_batch bs scripts).get? i =
        (scripts.get? i).map fun sc => processSingle (bs i) sc i := by
    intro bs i
    have h := processFrom_get? bs scripts 0 i
    simpa using h
  refine ⟨processFrom_length behaviors scripts 0, ?_, ?_, ?_⟩
  · intro b sc i e he
    rw [processSingle, he]
  · intro j hj
    rw [hget behaviors j, hget behaviors₂ j, hj]
  · intro hfail j hj
    rcases hsc : scripts.get? j with _ | sc
    · rw [List.get?_eq_none] at hsc
      omega
    · obtain ⟨e, he⟩ := hfail j sc
      refine ⟨⟨j, none, "failed", [], some e⟩, ?_, rfl, rfl⟩
      rw [hget behaviors j, hsc, Option.map]
      rw [processSingle, he]

/-- All-failing service oracle used to evaluate the batch model. -/
def behaviorsFail : Nat → ServiceBehavior Unit := fun _ =>
  ⟨fun _ => Except.error "submit refused",
   fun _ => Except.error "wait refused",
   fun _ => Except.error "download refused"⟩

/-- C5 witness: a three-item batch in which every item fails still
produces a failed record with the right index at position 1. -/
theorem process_batch_isolation_witness :
    ∃ r, (process_batch behaviorsFail [(), (), ()]).get? 1 = some r
      ∧ r.index = 1 ∧ r.status = "failed" :=
  (process_batch_isolation behaviorsFail behaviorsFail
    [(), (), ()]).2.2.2 (fun _ _ => ⟨"submit refused", rfl⟩) 1 (by decide)

/-! ## BatchProcessor scheduler: semaphore discipline

Small-step model of the concurrency skeleton of
BatchProcessor._process_single (src/src/simulation_manager.py, lines
460-500) under the asyncio scheduler.  The processor owns
asyncio.Semaphore(max_concurrent) (line 413); each of the n batch tasks
executes `async with self.semaphore:` around its pipeline.  A task is
`waiting` before the acquire, `running` while inside the async-with
body (the submit→wait→download pipeline) and `done` after the exit of
the async-with, which releases the semaphore unconditionally — the body
may exit by normal return, by the except-branch returning the failure
dict, or by an exception escaping the body; all three exits run the
release.  The scheduler may interleave tasks arbitrarily: a step either
completes an acquire (possible only when a permit is free) or finishes a
task body along one of its exit paths. -/

inductive TaskPhase where
  | waiting : TaskPhase
  | running : TaskPhase
  | done : TaskPhase
  deriving DecidableEq, Repr

inductive ExitPath where
  | normalReturn : ExitPath
  | caughtFailure : ExitPath
  | escapedExc : ExitPath
  deriving DecidableEq, Repr

structure SchedState where
  sem : Nat
  phases : List TaskPhase
  deriving DecidableEq, Repr

/-- Initial scheduler state: all permits free, every task queued. -/
def initState (k n : Nat) : SchedState :=
  ⟨k, List.replicate n TaskPhase.waiting⟩

inductive SchedEvent where
  | acquire (i : Nat) : SchedEvent
  | release (i : Nat) (o : ExitPath) : SchedEvent
  deriving DecidableEq, Repr

/-- One scheduler step: an acquire consumes a free permit and moves a
queued task into the pipeline; a release returns the permit when the
task body exits (on any exit path) and marks the task done. -/
inductive SchedStep : SchedState → SchedEvent → SchedState → Prop where
  | acquire {s : SchedState} {i : Nat} (hi : i < s.phases.length)
      (hw : s.phases.get ⟨i, hi⟩ = TaskPhase.waiting) (hs : 0 < s.sem) :
      SchedStep s (SchedEvent.acquire i)
        ⟨s.sem - 1, s.phases.set i TaskPhase.running⟩
  | release {s : SchedState} {i : Nat} {o : ExitPath}
      (hi : i < s.phases.length)
      (hr : s.phases.get ⟨i, hi⟩ = TaskPhase.running) :
      SchedStep s (SchedEvent.release i o)
        ⟨s.sem + 1, s.phases.set i TaskPhase.done⟩

inductive SchedTrace : SchedState → List SchedEvent → SchedState → Prop where
  | nil {s : SchedState} : SchedTrace s [] s
  | cons {s s₂ s₃ : SchedState} {e : SchedEvent} {es : List SchedEvent} :
      SchedStep s e s₂ → SchedTrace s₂ es s₃ → SchedTrace s (e :: es) s₃

/-- Number of tasks currently inside the submit→wait→download pipeline. -/
def inPipeline (s : SchedState) : Nat :=
  s.phases.countP fun p => decide (p = TaskPhase.running)

/-- Number of acquire events of task i in a trace. -/
def acquiresOf (tr : List SchedEvent) (i : Nat) : Nat :=
  tr.countP fun e =>
    match e with
    | SchedEvent.acquire j => decide (j = i)
    | SchedEvent.release _ _ => false

/-- Number of release events of task i in a trace, over all exit paths. -/
def releasesOf (tr : List SchedEvent) (i : Nat) : Nat :=
  tr.countP fun e =>
    match e with
    | SchedEvent.acquire _ => false
    | SchedEvent.release j _ => decide (j = i)

lemma countP_set_phase (p : TaskPhase → Bool) :
    ∀ (l : List TaskPhase) (i : Nat) (hi : i < l.length) (b : TaskPhase),
      (l.set i b).countP p + (if p (l.get ⟨i, hi⟩) then 1 else 0) =
        l.countP p + (if p b then 1 else 0) := by
  intro l
  induction l with
  | nil => intro i hi; exact absurd hi (by simp)
  | cons a rest ih =>
    intro i hi b
    cases i with
    | zero =>
      simp only [List.set, List.countP_cons, List.get]
      omega
    | succ i =>
      have hi2 : i < rest.length := by simpa using hi
      have h := ih i hi2 b
      simp only [List.set, List.countP_cons, List.get]
      omega

lemma schedStep_semInv {s s₂ : SchedState} {e : SchedEvent}
    (h : SchedStep s e s₂) :
    s₂.sem + inPipeline s₂ = s.sem + inPipeline s := by
  cases h with
  | acquire hi hw hs =>
    have hc := countP_set_phase (fun p => decide (p = TaskPhase.running))
      _ _ hi TaskPhase.running
    rw [hw] at hc
    simp only [inPipeline] at *
    simp at hc
    omega
  | release hi hr =>
    have hc := countP_set_phase (fun p => decide (p = TaskPhase.running))
      _ _ hi TaskPhase.done
    rw [hr] at hc
    simp only [inPipeline] at *
    simp at hc
    omega

lemma schedStep_length {s s₂ : SchedState} {e : SchedEvent}
    (h : SchedStep s e s₂) : s₂.phases.length = s.phases.length := by
  cases h <;> simp

lemma schedTrace_semInv {s s₂ : SchedState} {tr : List SchedEvent}
    (h : SchedTrace s tr s₂) :
    s₂.sem + inPipeline s₂ = s.sem + inPipeline s := by
  induction h with
  | nil => rfl
  | cons hstep _ ih => rw [ih, schedStep_semInv hstep]

lemma schedTrace_length {s s₂ : SchedState} {tr : List SchedEvent}
    (h : SchedTrace s tr s₂) : s₂.phases.length = s.phases.length := by
  induction h with
  | nil => rfl
  | cons hstep _ ih => rw [ih, schedStep_length hstep]

lemma inPipeline_init (k n : Nat) : inPipeline (initState k n) = 0 := by
  rw [inPipeline, initState]
  induction n with
  | zero => rfl
  | succ n ih => simpa [List.replicate, List.countP_cons] using ih

/-- C3: the semaphore bound is a hard ceiling.  In every state reachable
from the initial batch state with max_concurrent = k permits, at most k
tasks are simultaneously inside the submit→wait→download pipeline; a
task can pass from queued to in-pipeline only when a permit is free. -/
theorem batch_concurrency_bound (k n : Nat) (hk : 1 ≤ k)
    (tr : List SchedEvent) (s : SchedState)
    (h : SchedTrace (initState k n) tr s) :
    inPipeline s ≤ k := by
  have hinv := schedTrace_semInv h
  rw [inPipeline_init] at hinv
  simp only [initState] at hinv
  omega

/-- C3 witness: with one permit and two tasks, after the trace where task
0 acquires, finishes and task 1 acquires, at most one task is in the
pipeline. -/
theorem batch_concurrency_bound_witness :
    inPipeline ⟨0, [TaskPhase.done, TaskPhase.running]⟩ ≤ 1 := by
  have h1 : SchedStep (initState 1 2) (SchedEvent.acquire 0)
      ⟨0, [TaskPhase.running, TaskPhase.waiting]⟩ :=
    SchedStep.acquire (by decide) rfl (by decide)
  have h2 : SchedStep ⟨0, [TaskPhase.running, TaskPhase.waiting]⟩
      (SchedEvent.release 0 ExitPath.normalReturn)
      ⟨1, [TaskPhase.done, TaskPhase.waiting]⟩ :=
    SchedStep.release (by decide) rfl
  have h3 : SchedStep ⟨1, [TaskPhase.done, TaskPhase.waiting]⟩
      (SchedEvent.acquire 1)
      ⟨0, [TaskPhase.done, TaskPhase.running]⟩ :=
    SchedStep.acquire (by decide) rfl (by decide)
  exact batch_concurrency_bound 1 2 (by decide)
    [SchedEvent.acquire 0, SchedEvent.release 0 ExitPath.normalReturn,
     SchedEvent.acquire 1]
    ⟨0, [TaskPhase.done, TaskPhase.running]⟩
    (SchedTrace.cons h1 (SchedTrace.cons h2
      (SchedTrace.cons h3 SchedTrace.nil)))

lemma get_set_self_phase (l : List TaskPhase) (i : Nat) (b : TaskPhase)
    (hi2 : i < (l.set i b).length) : (l.set i b).get ⟨i, hi2⟩ = b := by
  have hi : i < l.length := by simpa using hi2
  simp [List.get_eq_getElem, List.getElem_set]

lemma get_set_ne_phase (l : List TaskPhase) (i j : Nat) (b : TaskPhase)
    (hne : i ≠ j) (hj2 : j < (l.set i b).length) (hj : j < l.length) :
    (l.set i b).get ⟨j, hj2⟩ = l.get ⟨j, hj⟩ := by
  simp [List.get_eq_getElem, List.getElem_set, hne]

/-- How one task's phase can have evolved over a trace that performed
`a` acquires and `r` releases for it: a task acquires at most once,
releases at most once, never releases before acquiring, and reaches the
done phase exactly by one acquire followed by one release. -/
def taskEvolution (p : TaskPhase) (a r : Nat) (q : TaskPhase) : Prop :=
  (p = TaskPhase.waiting ∧
    ((a = 0 ∧ r = 0 ∧ q = TaskPhase.waiting) ∨
     (a = 1 ∧ r = 0 ∧ q = TaskPhase.running) ∨
     (a = 1 ∧ r = 1 ∧ q = TaskPhase.done)))
  ∨ (p = TaskPhase.running ∧
    ((a = 0 ∧ r = 0 ∧ q = TaskPhase.running) ∨
     (a = 0 ∧ r = 1 ∧ q = TaskPhase.done)))
  ∨ (p = TaskPhase.done ∧ a = 0 ∧ r = 0 ∧ q = TaskPhase.done)

lemma schedTrace_taskEvolution {s₀ s : SchedState} {tr : List SchedEvent}
    (h : SchedTrace s₀ tr s) :
    ∀ (i : Nat) (hi₀ : i < s₀.phases.length) (hi : i < s.phases.length),
      taskEvolution (s₀.phases.get ⟨i, hi₀⟩) (acquiresOf tr i)
        (releasesOf tr i) (s.phases.get ⟨i, hi⟩) := by
  induction h with
  | nil =>
    rename_i sN
    intro i hi₀ hi
    have hsame : sN.phases.get ⟨i, hi⟩ = sN.phases.get ⟨i, hi₀⟩ := rfl
    rw [hsame]
    cases sN.phases.get ⟨i, hi₀⟩ with
    | waiting => exact Or.inl ⟨rfl, Or.inl ⟨rfl, rfl, rfl⟩⟩
    | running => exact Or.inr (Or.inl ⟨rfl, Or.inl ⟨rfl, rfl, rfl⟩⟩)
    | done => exact Or.inr (Or.inr ⟨rfl, rfl, rfl, rfl⟩)
  | cons hstep htr ih =>
    rename_i sA sB sC e es
    intro i hi₀ hi
    cases hstep with
    | acquire hj hw hs =>
      rename_i j
      have hacq : acquiresOf (SchedEvent.acquire j :: es) i =
          acquiresOf es i + if decide (j = i) then 1 else 0 :=
        List.countP_cons _ _ _
      have hrel : releasesOf (SchedEvent.acquire j :: es) i =
          releasesOf es i + 0 := List.countP_cons _ _ _
      rw [hacq, hrel]
      have hi₁ : i < (sA.phases.set j TaskPhase.running).length := by
        simpa using hi₀
      have ih2 := ih i hi₁ hi
      by_cases hji : j = i
      · subst hji
        rw [get_set_self_phase sA.phases j TaskPhase.running hi₁] at ih2
        have hw2 : sA.phases.get ⟨j, hi₀⟩ = TaskPhase.waiting := hw
        rw [hw2, if_pos (by simp)]
        rcases ih2 with ⟨hp, _⟩ | ⟨_, hcase⟩ | ⟨hp, _⟩
        · exact absurd hp (by intro hcon; exact TaskPhase.noConfusion hcon)
        · rcases hcase with ⟨ha, hr, hq⟩ | ⟨ha, hr, hq⟩
          · exact Or.inl ⟨rfl, Or.inr (Or.inl ⟨by omega, by omega, hq⟩)⟩
          · exact Or.inl ⟨rfl, Or.inr (Or.inr ⟨by omega, by omega, hq⟩)⟩
        · exact absurd hp (by intro hcon; exact TaskPhase.noConfusion hcon)
      · rw [get_set_ne_phase sA.phases j i TaskPhase.running hji hi₁ hi₀]
          at ih2
        rw [if_neg (by simpa using hji)]
        simpa using ih2
    | release hj hr =>
      rename_i j o
      have hacq : acquiresOf (SchedEvent.release j o :: es) i =
          acquiresOf es i + 0 := List.countP_cons _ _ _
      have hrel : releasesOf (SchedEvent.release j o :: es) i =
          releasesOf es i + if decide (j = i) then 1 else 0 :=
        List.countP_cons _ _ _
      rw [hacq, hrel]
      have hi₁ : i < (sA.phases.set j TaskPhase.done).length := by
        simpa using hi₀
      have ih2 := ih i hi₁ hi
      by_cases hji : j = i
      · subst hji
        rw [get_set_self_phase sA.phases j TaskPhase.done hi₁] at ih2
        have hr2 : sA.phases.get ⟨j, hi₀⟩ = TaskPhase.running := hr
        rw [hr2, if_pos (by simp)]
        rcases ih2 with ⟨hp, _⟩ | ⟨hp, _⟩ | ⟨_, ha, hrc, hq⟩
        · exact absurd hp (by intro hcon; exact TaskPhase.noConfusion hcon)
        · exact absurd hp (by intro hcon; exact TaskPhase.noConfusion hcon)
        · exact Or.inr (Or.inl ⟨rfl, Or.inr ⟨by omega, by omega, hq⟩⟩)
      · rw [get_set_ne_phase sA.phases j i TaskPhase.done hji hi₁ hi₀]
          at ih2
        rw [if_neg (by simpa using hji)]
        simpa using ih2

/-- C6: semaphore discipline of _process_single.  Along every trace from
the initial batch state, each task acquires at most once and never
releases more often than it acquired; a task that has completed (reached
the done phase, through any of the three exit paths of the async-with
body) has released exactly the one permit it acquired; and whenever no
task is inside the pipeline, all max_concurrent permits are back — no
permit is ever leaked. -/
theorem batch_release_exactly_once (k n : Nat) (tr : List SchedEvent)
    (s : SchedState) (h : SchedTrace (initState k n) tr s) (i : Nat)
    (hi : i < n) :
    acquiresOf tr i ≤ 1
    ∧ releasesOf tr i ≤ acquiresOf tr i
    ∧ (∀ (hi2 : i < s.phases.length),
        s.phases.get ⟨i, hi2⟩ = TaskPhase.done →
          acquiresOf tr i = 1 ∧ releasesOf tr i = 1)
    ∧ (inPipeline s = 0 → s.sem = k) := by
  have hi₀ : i < (initState k n).phases.length := by
    simpa [initState] using hi
  have hi2 : i < s.phases.length := by
    rw [schedTrace_length h]
    exact hi₀
  have hev := schedTrace_taskEvolution h i hi₀ hi2
  have hinit : (initState k n).phases.get ⟨i, hi₀⟩ = TaskPhase.waiting := by
    simp [initState]
  rw [hinit] at hev
  have hsem := schedTrace_semInv h
  rw [inPipeline_init] at hsem
  simp only [initState] at hsem
  rcases hev with ⟨_, hcase⟩ | ⟨hp, _⟩ | ⟨hp, _⟩
  · rcases hcase with ⟨ha, hr, hq⟩ | ⟨ha, hr, hq⟩ | ⟨ha, hr, hq⟩
    · refine ⟨by omega, by omega, ?_, by omega⟩
      intro hi3 hdone
      rw [hdone] at hq
      exact absurd hq.symm (by intro hcon; exact TaskPhase.noConfusion hcon)
    · refine ⟨by omega, by omega, ?_, by omega⟩
      intro hi3 hdone
      rw [hdone] at hq
      exact absurd hq.symm (by intro hcon; exact TaskPhase.noConfusion hcon)
    · exact ⟨by omega, by omega, fun _ _ => ⟨ha, hr⟩, by omega⟩
  · exact absurd hp (by intro hcon; exact TaskPhase.noConfusion hcon)
  · exact absurd hp (by intro hcon; exact TaskPhase.noConfusion hcon)

/-- C6 witness: a single task that acquires and whose body exits by an
escaping exception has released exactly once. -/
theorem batch_release_exactly_once_witness :
    acquiresOf [SchedEvent.acquire 0,
      SchedEvent.release 0 ExitPath.escapedExc] 0 = 1
    ∧ releasesOf [SchedEvent.acquire 0,
      SchedEvent.release 0 ExitPath.escapedExc] 0 = 1 := by
  have h1 : SchedStep (initState 2 1) (SchedEvent.acquire 0)
      ⟨1, [TaskPhase.running]⟩ :=
    SchedStep.acquire (by decide) rfl (by decide)
  have h2 : SchedStep ⟨1, [TaskPhase.running]⟩
      (SchedEvent.release 0 ExitPath.escapedExc)
      ⟨2, [TaskPhase.done]⟩ :=
    SchedStep.release (by decide) rfl
  exact (batch_release_exactly_once 2 1
    [SchedEvent.acquire 0, SchedEvent.release 0 ExitPath.escapedExc]
    ⟨2, [TaskPhase.done]⟩
    (SchedTrace.cons h1 (SchedTrace.cons h2 SchedTrace.nil))
    0 (by decide)).2.2.1 (by decide) rfl

/-! ## SimulationScript persistence

Embedding of SimulationScript (src/src/simulation_manager.py, lines
22-138).  Script actions are Python values (`actions` is a list of
dicts); `PyVal` is the universe of values that can appear there, and
`Json` the universe that json text can carry.  to_file writes
json.dumps(self.actions) — which raises TypeError on values that are not
JSON serializable, such as a bytes image, modelled by jsonEncode
returning none — and from_file assigns the parsed json back to
`actions` without validation. -/

inductive PyVal where
  | pstr (s : String) : PyVal
  | pint (n : Int) : PyVal
  | pbytes (b : List Nat) : PyVal
  | plist (xs : List PyVal) : PyVal
  | pdict (kvs : List (String × PyVal)) : PyVal

inductive Json where
  | jstr (s : String) : Json
  | jint (n : Int) : Json
  | jarr (xs : List Json) : Json
  | jobj (kvs : List (String × Json)) : Json

mutual

/-- json.dumps: total on JSON-safe values, TypeError (none) as soon as a
non-serializable value such as bytes appears anywhere. -/
def jsonEncode : PyVal → Option Json
  | PyVal.pstr s => some (Json.jstr s)
  | PyVal.pint n => some (Json.jint n)
  | PyVal.pbytes _ => none
  | PyVal.plist xs => (jsonEncodeList xs).map Json.jarr
  | PyVal.pdict kvs => (jsonEncodeKVs kvs).map Json.jobj

def jsonEncodeList : List PyVal → Option (List Json)
  | [] => some []
  | x :: xs =>
    match jsonEncode x, jsonEncodeList xs with
    | some j, some js => some (j :: js)
    | _, _ => none

def jsonEncodeKVs : List (String × PyVal) → Option (List (String × Json))
  | [] => some []
  | (k, v) :: rest =>
    match jsonEncode v, jsonEncodeKVs rest with
    | some j, some js => some ((k, j) :: js)
    | _, _ => none

end

mutual

/-- json.load: the parsed value carried by the stored json. -/
def jsonToPy : Json → PyVal
  | Json.jstr s => PyVal.pstr s
  | Json.jint n => PyVal.pint n
  | Json.jarr xs => PyVal.plist (jsonToPyList xs)
  | Json.jobj kvs => PyVal.pdict (jsonToPyKVs kvs)

def jsonToPyList : List Json → List PyVal
  | [] => []
  | x :: xs => jsonToPy x :: jsonToPyList xs

def jsonToPyKVs : List (String × Json) → List (String × PyVal)
  | [] => []
  | (k, v) :: rest => (k, jsonToPy v) :: jsonToPyKVs rest

end

/-- The `image` argument of add_start: `Optional[str | bytes]`
(line 41). -/
inductive PyImage where
  | text (s : String) : PyImage
  | blob (b : List Nat) : PyImage

def PyImage.toVal : PyImage → PyVal
  | PyImage.text s => PyVal.pstr s
  | PyImage.blob b => PyVal.pbytes b

structure SimulationScript where
  actions : List PyVal

/-- SimulationScript.add_start (lines 37-65): appends the start action
dict; the image key is added only when an image is supplied. -/
def add_start (s : SimulationScript) (prompt : String)
    (timestamp_ms : Int) (image : Option PyImage) : SimulationScript :=
  let startFields :=
    match image with
    | none => [("prompt", PyVal.pstr prompt)]
    | some img => [("prompt", PyVal.pstr prompt), ("image", img.toVal)]
  ⟨s.actions ++
    [PyVal.pdict [("timestamp_ms", PyVal.pint timestamp_ms),
      ("start", PyVal.pdict startFields)]]⟩

/-- SimulationScript.add_interact (lines 67-88). -/
def add_interact (s : SimulationScript) (prompt : String)
    (timestamp_ms : Int) : SimulationScript :=
  ⟨s.actions ++
    [PyVal.pdict [("timestamp_ms", PyVal.pint timestamp_ms),
      ("interact", PyVal.pdict [("prompt", PyVal.pstr prompt)])]]⟩

/-- SimulationScript.add_end (lines 90-104). -/
def add_end (s : SimulationScript) (timestamp_ms : Int) :
    SimulationScript :=
  ⟨s.actions ++
    [PyVal.pdict [("timestamp_ms", PyVal.pint timestamp_ms),
      ("end", PyVal.pdict [])]]⟩

/-- SimulationScript.to_file (lines 128-138): the json text written is
json.dumps(self.actions); none models the TypeError raised when the
actions are not JSON serializable. -/
def to_file (s : SimulationScript) : Option Json :=
  jsonEncode (PyVal.plist s.actions)

/-- SimulationScript.from_file (lines 110-126): script.actions is the
parsed json value; every file written by to_file holds a list. -/
def from_file (j : Json) : SimulationScript :=
  match jsonToPy j with
  | PyVal.plist xs => ⟨xs⟩
  | v => ⟨[v]⟩

mutual

theorem encode_decode : (v : PyVal) → (j : Json) → jsonEncode v = some j →
    jsonToPy j = v
  | PyVal.pstr s, j, h => by
    simp only [jsonEncode, Option.some.injEq] at h
    subst h
    rfl
  | PyVal.pint n, j, h => by
    simp only [jsonEncode, Option.some.injEq] at h
    subst h
    rfl
  | PyVal.pbytes b, j, h => by
    simp only [jsonEncode] at h
    exact Option.noConfusion h
  | PyVal.plist xs, j, h => by
    simp only [jsonEncode] at h
    rcases hx : jsonEncodeList xs with _ | js
    · rw [hx] at h
      exact Option.noConfusion h
    · rw [hx] at h
      simp only [Option.map, Option.some.injEq] at h
      subst h
      simp only [jsonToPy]
      rw [encodeList_decode xs js hx]
  | PyVal.pdict kvs, j, h => by
    simp only [jsonEncode] at h
    rcases hx : jsonEncodeKVs kvs with _ | js
    · rw [hx] at h
      exact Option.noConfusion h
    · rw [hx] at h
      simp only [Option.map, Option.some.injEq] at h
      subst h
      simp only [jsonToPy]
      rw [encodeKVs_decode kvs js hx]

theorem encodeList_decode : (xs : List PyVal) → (js : List Json) →
    jsonEncodeList xs = some js → jsonToPyList js = xs
  | [], js, h => by
    simp only [jsonEncodeList, Option.some.injEq] at h
    subst h
    rfl
  | x :: xs, js, h => by
    simp only [jsonEncodeList] at h
    rcases hx : jsonEncode x with _ | jx
    · rw [hx] at h
      exact Option.noConfusion h
    · rcases hxs : jsonEncodeList xs with _ | jxs
      · rw [hx, hxs] at h
        exact Option.noConfusion h
      · rw [hx, hxs] at h
        simp only [Option.some.injEq] at h
        subst h
        simp only [jsonToPyList]
        rw [encode_decode x jx hx, encodeList_decode xs jxs hxs]

theorem encodeKVs_decode : (kvs : List (String × PyVal)) →
    (js : List (String × Json)) →
    jsonEncodeKVs kvs = some js → jsonToPyKVs js = kvs
  | [], js, h => by
    simp only [jsonEncodeKVs, Option.some.injEq] at h
    subst h
    rfl
  | (k, v) :: rest, js, h => by
    simp only [jsonEncodeKVs] at h
    rcases hx : jsonEncode v with _ | jv
    · rw [hx] at h
      exact Option.noConfusion h
    · rcases hxs : jsonEncodeKVs rest with _ | jrest
      · rw [hx, hxs] at h
        exact Option.noConfusion h
      · rw [hx, hxs] at h
        simp only [Option.some.injEq] at h
        subst h
        simp only [jsonToPyKVs]
        rw [encode_decode v jv hx, encodeKVs_decode rest jrest hxs]

end

/-- A two-action script with a bytes image, built through the documented
add_start signature (image: Optional[str | bytes]). -/
def bytesScript : SimulationScript :=
  add_end (add_start ⟨[]⟩ "A robot dancing" 0
    (some (PyImage.blob [0, 1, 2]))) 10000

/-- C9 counterexample: saving a script whose start action carries a
bytes image fails — json.dumps raises TypeError on bytes, so no file is
produced and no save/load round trip exists for this script, although
it is a well-typed two-action script. -/
theorem script_save_bytes_counterexample :
    to_file bytesScript = none ∧ bytesScript.actions.length = 2 :=
  ⟨rfl, rfl⟩

/-- C9 (amended): every script that json can serialize — in particular
any script whose actions carry no bytes value — round-trips losslessly:
loading the file written by to_file yields exactly the original ordered
action sequence. -/
theorem script_roundtrip (s : SimulationScript) (j : Json)
    (h : to_file s = some j) : (from_file j).actions = s.actions := by
  rw [to_file] at h
  have hdec := encode_decode _ j h
  rw [from_file, hdec]

/-- A start/interact/end script without an image. -/
def demoScript : SimulationScript :=
  add_end (add_interact (add_start ⟨[]⟩ "A cat" 0 none) "Cat jumps" 5000)
    10000

/-- The json written for demoScript. -/
def demoJson : Json :=
  Json.jarr
    [Json.jobj [("timestamp_ms", Json.jint 0),
       ("start", Json.jobj [("prompt", Json.jstr "A cat")])],
     Json.jobj [("timestamp_ms", Json.jint 5000),
       ("interact", Json.jobj [("prompt", Json.jstr "Cat jumps")])],
     Json.jobj [("timestamp_ms", Json.jint 10000),
       ("end", Json.jobj [])]]

/-- C9 amended witness: the save/load round trip evaluated on the
concrete three-action demo script. -/
theorem script_roundtrip_witness :
    (from_file demoJson).actions = demoScript.actions :=
  script_roundtrip demoScript demoJson rfl

end LatentWall
